import Mathlib

/-!
Verification of the Ledger-View Assembler of the indexer repository
(`idb/postgres/internal/ledger_for_evaluator`).

The repository ships only the test suite of this subsystem
(`ledger_for_evaluator_test.go`); the implementation file itself is not
among the provided sources.  Following the specification (spec.md §3, §4,
§6, §7), the data model and the four lookup operations are modelled here
as executable Lean definitions: relations are lists of rows carrying a
soft-delete (tombstone) flag, encoded payload columns are an abstract
`Payload` type with an opaque encode/decode pair that can also represent a
corrupt column, and every operation returns `Except Err`.
-/

/-- Error taxonomy of the view (spec.md §7): a decode failure is reported
as a kind distinct from "no such row". Transport errors of the driver are
outside the shallow embedding. -/
inductive Err where
  | notFound
  | decodeFailed
deriving DecidableEq

/-- Modelled from the spec: the on-disk encoding of payload columns is an
opaque encode/decode primitive (spec.md §1, §6).  `enc a` is the encoding
of `a`; `corrupt` stands for a malformed column that fails to decode. -/
inductive Payload (α : Type) where
  | enc : α → Payload α
  | corrupt : Payload α
deriving DecidableEq

/-- Modelled from the spec: the encode primitive used by fixtures. -/
def encodeP {α : Type} (a : α) : Payload α := Payload.enc a

/-- Modelled from the spec: the decode primitive; a corrupt column yields
the decode-failure error, distinct from not-found (spec.md §7). -/
def decodeE {α : Type} : Payload α → Except Err α
  | Payload.enc a => Except.ok a
  | Payload.corrupt => Except.error Err.decodeFailed

/-- A TEAL value stored inside app global/local state. -/
structure TealValue where
  ttype : Nat
  bytes : List Nat
  uint : Nat
deriving DecidableEq

/-- Key-value state of an app; keys are arbitrary byte strings (they may
be non-UTF-8, e.g. the single byte 0xff), modelled as byte lists. -/
abbrev TealKeyValue := List (List Nat × TealValue)

/-- Asset configuration parameters (the `params` payload of the `asset`
relation). -/
structure AssetParams where
  manager : Nat
  total : Nat
  decimals : Nat
deriving DecidableEq

/-- One asset holding (the `amount`/`frozen` columns of `account_asset`). -/
structure AssetHolding where
  amount : Nat
  frozen : Bool
deriving DecidableEq

/-- App configuration parameters (the `params` payload of the `app`
relation). -/
structure AppParams where
  approvalProgram : List Nat
  globalState : TealKeyValue
deriving DecidableEq

/-- App local state (the `localstate` payload of `account_app`). -/
structure AppLocalState where
  keyValue : TealKeyValue
deriving DecidableEq

/-- The trimmed account payload stored in the nullable `account_data`
column.  It carries its own copies of the balance/rewards fields, which
the assembler must ignore in favour of the row's dedicated columns. -/
structure TrimmedAccountData where
  microAlgos : Nat
  rewardsBase : Nat
  rewardedMicroAlgos : Nat
  status : Nat
  voteID : Nat
deriving DecidableEq

/-- The all-zero trimmed payload used when the `account_data` column is
null (spec.md §4.3 step 3). -/
def defaultTrimmed : TrimmedAccountData :=
  { microAlgos := 0, rewardsBase := 0, rewardedMicroAlgos := 0, status := 0, voteID := 0 }

/-- A decoded block header (stored encoded in `block_header.header`). -/
structure BlockHeader where
  feeSink : Nat
  rewardsPool : Nat
  rewardsLevel : Nat
deriving DecidableEq

/-- Row of the `account` relation (spec.md §6): base account row with
dedicated balance/rewards columns, a tombstone flag and a nullable
encoded aggregate payload. -/
structure AccountRow where
  addr : Nat
  microalgos : Nat
  rewardsbase : Nat
  rewardsTotal : Nat
  deleted : Bool
  accountData : Option (Payload TrimmedAccountData)
deriving DecidableEq

/-- Row of the `account_asset` relation: one asset holding of one address,
composite key (addr, assetid). -/
structure AccountAssetRow where
  addr : Nat
  assetid : Nat
  amount : Nat
  frozen : Bool
  deleted : Bool
deriving DecidableEq

/-- Row of the `asset` relation: one created asset with its creator and
encoded parameters. -/
structure AssetRow where
  index : Nat
  creatorAddr : Nat
  params : Payload AssetParams
  deleted : Bool
deriving DecidableEq

/-- Row of the `account_app` relation: local state of one address in one
app, composite key (addr, app). -/
structure AccountAppRow where
  addr : Nat
  app : Nat
  localstate : Payload AppLocalState
  deleted : Bool
deriving DecidableEq

/-- Row of the `app` relation: one created app with its creator and
encoded parameters. -/
structure AppRow where
  index : Nat
  creator : Nat
  params : Payload AppParams
  deleted : Bool
deriving DecidableEq

/-- Row of the `block_header` relation, keyed by round. -/
structure BlockHeaderRow where
  round : Nat
  realtime : Nat
  rewardslevel : Nat
  header : Payload BlockHeader
deriving DecidableEq

/-- The database snapshot visible through the bound transaction: the five
account-state relations plus the block-header relation (spec.md §6). -/
structure DB where
  account : List AccountRow
  accountAsset : List AccountAssetRow
  asset : List AssetRow
  accountApp : List AccountAppRow
  app : List AppRow
  blockHeader : List BlockHeaderRow
deriving DecidableEq

/-- The special-address overlay configuration: fee sink and rewards pool
(spec.md §4.2). -/
structure SpecialAddresses where
  feeSink : Nat
  rewardsPool : Nat
deriving DecidableEq

/-- Whether an address is in the special-address overlay. -/
def isSpecial (sp : SpecialAddresses) (a : Nat) : Bool :=
  a == sp.feeSink || a == sp.rewardsPool

/-- The aggregate account record returned by the assembler: balance and
rewards fields plus the four creatable-derived maps, modelled as
association lists keyed by creatable id (spec.md §3). -/
structure AccountData where
  microAlgos : Nat
  rewardsBase : Nat
  rewardedMicroAlgos : Nat
  status : Nat
  voteID : Nat
  assetParams : List (Nat × AssetParams)
  assets : List (Nat × AssetHolding)
  appLocalStates : List (Nat × AppLocalState)
  appParams : List (Nat × AppParams)
deriving DecidableEq

/-- Creator-resolution result: creator address plus existence flag. -/
structure FoundAddress where
  address : Nat
  existsFlag : Bool
deriving DecidableEq

/-- Modelled from the spec: the synthetic always-solvent balance of the
special-address overlay (spec.md §4.2; the test fixture uses 10^15). -/
def syntheticBalance : Nat := 1000 * 1000 * 1000 * 1000 * 1000

/-- Modelled from the spec: the record returned for an overlay address —
the synthetic balance with every other aggregate field at its empty
default (spec.md §4.2). -/
def overlayRecord : AccountData :=
  { microAlgos := syntheticBalance, rewardsBase := 0, rewardedMicroAlgos := 0,
    status := 0, voteID := 0,
    assetParams := [], assets := [], appLocalStates := [], appParams := [] }

/-- Error-propagating map over a list, mirroring the Go loop that drains
one batched query and fails the whole call on the first row error. -/
def mapME {α β : Type} (f : α → Except Err β) : List α → Except Err (List β)
  | [] => Except.ok []
  | x :: xs =>
    match f x with
    | Except.error e => Except.error e
    | Except.ok y =>
      match mapME f xs with
      | Except.error e => Except.error e
      | Except.ok ys => Except.ok (y :: ys)

/-- One result entry of the per-address merge loop: pair the address with
its resolved record, propagating errors. -/
def lookupEntry {β : Type} (g : Nat → Except Err β) (a : Nat) : Except Err (Nat × β) :=
  match g a with
  | Except.error e => Except.error e
  | Except.ok d => Except.ok (a, d)

/-- Decoded entry of one `account_asset` row: holding keyed by asset id
(the columns are plain values, no payload to decode). -/
def holdingEntry (r : AccountAssetRow) : Nat × AssetHolding :=
  (r.assetid, { amount := r.amount, frozen := r.frozen })

/-- Decoded entry of one `asset` row: params keyed by asset id. -/
def assetEntry (r : AssetRow) : Except Err (Nat × AssetParams) :=
  match decodeE r.params with
  | Except.error e => Except.error e
  | Except.ok p => Except.ok (r.index, p)

/-- Decoded entry of one `account_app` row: local state keyed by app id. -/
def localStateEntry (r : AccountAppRow) : Except Err (Nat × AppLocalState) :=
  match decodeE r.localstate with
  | Except.error e => Except.error e
  | Except.ok p => Except.ok (r.app, p)

/-- Decoded entry of one `app` row: params keyed by app id. -/
def appEntry (r : AppRow) : Except Err (Nat × AppParams) :=
  match decodeE r.params with
  | Except.error e => Except.error e
  | Except.ok p => Except.ok (r.index, p)

/-- Decode of the nullable `account_data` column: a null column is a
fully default trimmed payload, not an error (spec.md §4.3 step 3). -/
def trimmedOf (base : AccountRow) : Except Err TrimmedAccountData :=
  match base.accountData with
  | none => Except.ok defaultTrimmed
  | some p => decodeE p

/-- Storage addresses of a lookup: the input set minus the overlay
(spec.md §4.3 step 1). -/
def storageAddrs (sp : SpecialAddresses) (addrs : List Nat) : List Nat :=
  addrs.filter (fun a => !isSpecial sp a)

/-- Batched base-row query: all live `account` rows of the requested
storage addresses (spec.md §4.3 step 2). -/
def batchedAccountRows (db : DB) (s : List Nat) : List AccountRow :=
  db.account.filter (fun r => s.contains r.addr && !r.deleted)

/-- Batched `account_asset` query over the full address set. -/
def batchedHoldingRows (db : DB) (s : List Nat) : List AccountAssetRow :=
  db.accountAsset.filter (fun r => s.contains r.addr && !r.deleted)

/-- Batched `asset` query over the full address set (by creator). -/
def batchedAssetRows (db : DB) (s : List Nat) : List AssetRow :=
  db.asset.filter (fun r => s.contains r.creatorAddr && !r.deleted)

/-- Batched `account_app` query over the full address set. -/
def batchedLocalStateRows (db : DB) (s : List Nat) : List AccountAppRow :=
  db.accountApp.filter (fun r => s.contains r.addr && !r.deleted)

/-- Batched `app` query over the full address set (by creator). -/
def batchedAppRows (db : DB) (s : List Nat) : List AppRow :=
  db.app.filter (fun r => s.contains r.creator && !r.deleted)

/-- Modelled from the spec: the merge step of the Batched Account
Assembler for one address (spec.md §4.3 step 3), over the already-drained
batched row sets.  No live base row yields `none` (absent); otherwise the
balance and rewards fields come from the base row's dedicated columns,
the trimmed payload supplies only the remaining fields, and every live
child row is folded into the map keyed by its creatable id.  Any decode
failure aborts the whole call. -/
def assembleAccount (B : List AccountRow) (H : List AccountAssetRow)
    (A : List AssetRow) (L : List AccountAppRow) (P : List AppRow)
    (a : Nat) : Except Err (Option AccountData) :=
  match B.find? (fun r => r.addr == a) with
  | none => Except.ok none
  | some base =>
    match trimmedOf base with
    | Except.error e => Except.error e
    | Except.ok t =>
      match mapME assetEntry (A.filter (fun r => r.creatorAddr == a)) with
      | Except.error e => Except.error e
      | Except.ok ap =>
        match mapME localStateEntry (L.filter (fun r => r.addr == a)) with
        | Except.error e => Except.error e
        | Except.ok ls =>
          match mapME appEntry (P.filter (fun r => r.creator == a)) with
          | Except.error e => Except.error e
          | Except.ok pp =>
            Except.ok (some
              { microAlgos := base.microalgos
                rewardsBase := base.rewardsbase
                rewardedMicroAlgos := base.rewardsTotal
                status := t.status
                voteID := t.voteID
                assetParams := ap
                assets := (H.filter (fun r => r.addr == a)).map holdingEntry
                appLocalStates := ls
                appParams := pp })

/-- Overlay entries of a lookup: every requested overlay address mapped
to the synthetic record, applied last (spec.md §4.3 step 4). -/
def overlayEntries (sp : SpecialAddresses) (addrs : List Nat) :
    List (Nat × Option AccountData) :=
  (addrs.filter (fun a => isSpecial sp a)).map (fun a => (a, some overlayRecord))

/-- Modelled from the spec: `LookupWithoutRewards` of the missing
implementation file (spec.md §4.3).  Partitions the input into overlay and
storage addresses, issues one batched query per relation parameterized by
the whole storage-address set, merges per address, and applies the overlay
last.  Returns one error or the complete mapping, never both. -/
def lookupWithoutRewards (db : DB) (sp : SpecialAddresses) (addrs : List Nat) :
    Except Err (List (Nat × Option AccountData)) :=
  match mapME (lookupEntry (assembleAccount
      (batchedAccountRows db (storageAddrs sp addrs))
      (batchedHoldingRows db (storageAddrs sp addrs))
      (batchedAssetRows db (storageAddrs sp addrs))
      (batchedLocalStateRows db (storageAddrs sp addrs))
      (batchedAppRows db (storageAddrs sp addrs)))) (storageAddrs sp addrs) with
  | Except.error e => Except.error e
  | Except.ok se => Except.ok (se ++ overlayEntries sp addrs)

/-- Reading the result mapping at one address; a missing entry and an
entry carrying `none` are both "absent", as for a Go nil map value. -/
def resLookup (res : List (Nat × Option AccountData)) (a : Nat) : Option AccountData :=
  match res.find? (fun e => e.1 == a) with
  | some e => e.2
  | none => none

/-- Result entries of the asset-creator resolution: one batched query
over the full id set, then one entry per requested id. -/
def assetCreatorEntries (db : DB) (ids : List Nat) : List (Nat × FoundAddress) :=
  ids.map (fun i =>
    match (db.asset.filter (fun r => ids.contains r.index && !r.deleted)).find?
        (fun r => r.index == i) with
    | some r => (i, { address := r.creatorAddr, existsFlag := true })
    | none => (i, { address := 0, existsFlag := false }))

/-- Result entries of the app-creator resolution. -/
def appCreatorEntries (db : DB) (ids : List Nat) : List (Nat × FoundAddress) :=
  ids.map (fun i =>
    match (db.app.filter (fun r => ids.contains r.index && !r.deleted)).find?
        (fun r => r.index == i) with
    | some r => (i, { address := r.creator, existsFlag := true })
    | none => (i, { address := 0, existsFlag := false }))

/-- Modelled from the spec: `GetAssetCreator` (spec.md §4.4): one batched
query over the id set; every requested id gets an entry, live rows give
the creator with `existsFlag` true, absent or tombstoned ids give the
zero address with `existsFlag` false. -/
def getAssetCreator (db : DB) (ids : List Nat) :
    Except Err (List (Nat × FoundAddress)) :=
  Except.ok (assetCreatorEntries db ids)

/-- Modelled from the spec: `GetAppCreator`, symmetric to
`getAssetCreator` over the `app` relation (spec.md §4.4). -/
def getAppCreator (db : DB) (ids : List Nat) :
    Except Err (List (Nat × FoundAddress)) :=
  Except.ok (appCreatorEntries db ids)

/-- Modelled from the spec: `LatestBlockHdr` (spec.md §4.5): looks up
exactly the row of the bound round; no row is not-found, a malformed
payload is a decode failure. -/
def latestBlockHdr (db : DB) (round : Nat) : Except Err BlockHeader :=
  match db.blockHeader.find? (fun r => r.round == round) with
  | none => Except.error Err.notFound
  | some row => decodeE row.header

/-- Live base row of one address: the unique non-tombstoned `account` row
matching it, if any. -/
def liveBaseRow (db : DB) (a : Nat) : Option AccountRow :=
  db.account.find? (fun r => r.addr == a && !r.deleted)

/-- Live asset-holding rows of one address. -/
def liveHoldings (db : DB) (a : Nat) : List AccountAssetRow :=
  db.accountAsset.filter (fun r => r.addr == a && !r.deleted)

/-- Live asset-creation rows of one address. -/
def liveAssetCreations (db : DB) (a : Nat) : List AssetRow :=
  db.asset.filter (fun r => r.creatorAddr == a && !r.deleted)

/-- Live app-local-state rows of one address. -/
def liveLocalStates (db : DB) (a : Nat) : List AccountAppRow :=
  db.accountApp.filter (fun r => r.addr == a && !r.deleted)

/-- Live app-creation rows of one address. -/
def liveAppCreations (db : DB) (a : Nat) : List AppRow :=
  db.app.filter (fun r => r.creator == a && !r.deleted)

/-- Asset ids held (live) by one address. -/
def holdingIds (db : DB) (a : Nat) : List Nat :=
  (liveHoldings db a).map (fun r => r.assetid)

/-- Ids of assets created (live) by one address. -/
def assetIds (db : DB) (a : Nat) : List Nat :=
  (liveAssetCreations db a).map (fun r => r.index)

/-- App ids with live local state for one address. -/
def localStateIds (db : DB) (a : Nat) : List Nat :=
  (liveLocalStates db a).map (fun r => r.app)

/-- Ids of apps created (live) by one address. -/
def appCreationIds (db : DB) (a : Nat) : List Nat :=
  (liveAppCreations db a).map (fun r => r.index)

/-- A unique live `asset` row for an id: present, not tombstoned, and the
only live row with that id. -/
def uniqueLiveAsset (db : DB) (i : Nat) (r : AssetRow) : Prop :=
  r ∈ db.asset ∧ r.index = i ∧ r.deleted = false ∧
    ∀ r2 ∈ db.asset, r2.index = i → r2.deleted = false → r2 = r

/-- No live `asset` row for an id (absent, or tombstoned only). -/
def noLiveAsset (db : DB) (i : Nat) : Prop :=
  ∀ r ∈ db.asset, r.index = i → r.deleted = true

/-- A unique live `app` row for an id. -/
def uniqueLiveApp (db : DB) (i : Nat) (r : AppRow) : Prop :=
  r ∈ db.app ∧ r.index = i ∧ r.deleted = false ∧
    ∀ r2 ∈ db.app, r2.index = i → r2.deleted = false → r2 = r

/-- No live `app` row for an id. -/
def noLiveApp (db : DB) (i : Nat) : Prop :=
  ∀ r ∈ db.app, r.index = i → r.deleted = true

/-- Value of an ok `Except`, with a fallback for the error case; used to
name concrete lookup results in witness statements. -/
def okValue {α : Type} (e : Except Err α) (d : α) : α :=
  match e with
  | Except.ok x => x
  | Except.error _ => d

/-! Concrete fixtures used to evaluate the operations on closed inputs. -/

/-- Overlay configuration of the fixtures: fee sink 1, rewards pool 2. -/
def spW : SpecialAddresses := { feeSink := 1, rewardsPool := 2 }

/-- Sample asset parameters. -/
def apW : AssetParams := { manager := 5, total := 100, decimals := 0 }

/-- Sample app parameters with a non-UTF-8 single-byte key 0xff. -/
def ppW : AppParams :=
  { approvalProgram := [1, 2, 3],
    globalState := [([255], { ttype := 0, bytes := [], uint := 0 })] }

/-- Sample app local state with a non-UTF-8 single-byte key 0xff. -/
def lsW : AppLocalState :=
  { keyValue := [([255], { ttype := 0, bytes := [], uint := 0 })] }

/-- Sample block header. -/
def hdrW : BlockHeader := { feeSink := 7, rewardsPool := 8, rewardsLevel := 0 }

/-- Fixture for C1: address 7 has a tombstoned base row and live child
rows in all four child relations. -/
def dbW1 : DB :=
  { account := [⟨7, 2, 3, 4, true, none⟩]
    accountAsset := [⟨7, 100, 5, false, false⟩]
    asset := [⟨200, 7, encodeP apW, false⟩]
    accountApp := [⟨7, 300, encodeP lsW, false⟩]
    app := [⟨400, 7, encodeP ppW, false⟩]
    blockHeader := [] }

def resW1 : List (Nat × Option AccountData) :=
  okValue (lookupWithoutRewards dbW1 spW [7]) []

/-- Fixture for C2: addresses 5 and 6 with disjoint children in every
child relation. -/
def dbW2 : DB :=
  { account := [⟨5, 0, 0, 0, false, none⟩, ⟨6, 0, 0, 0, false, none⟩]
    accountAsset := [⟨5, 100, 1, false, false⟩, ⟨6, 101, 2, false, false⟩]
    asset := [⟨200, 5, encodeP apW, false⟩, ⟨201, 6, encodeP apW, false⟩]
    accountApp := [⟨5, 300, encodeP lsW, false⟩, ⟨6, 301, encodeP lsW, false⟩]
    app := [⟨400, 5, encodeP ppW, false⟩, ⟨401, 6, encodeP ppW, false⟩]
    blockHeader := [] }

def baseW2 : AccountRow := ⟨5, 0, 0, 0, false, none⟩

def resW2 : List (Nat × Option AccountData) :=
  okValue (lookupWithoutRewards dbW2 spW [5, 6]) []

/-- Fixture for C3: address 5 with live and tombstoned rows in every
child relation. -/
def dbW3 : DB :=
  { account := [⟨5, 0, 0, 0, false, none⟩]
    accountAsset :=
      [⟨5, 10, 1, false, false⟩, ⟨5, 11, 2, true, false⟩, ⟨5, 12, 3, false, true⟩]
    asset := [⟨20, 5, encodeP apW, false⟩, ⟨21, 5, encodeP apW, true⟩]
    accountApp := [⟨5, 30, encodeP lsW, false⟩, ⟨5, 31, encodeP lsW, true⟩]
    app := [⟨40, 5, encodeP ppW, false⟩, ⟨41, 5, encodeP ppW, true⟩]
    blockHeader := [] }

def baseW3 : AccountRow := ⟨5, 0, 0, 0, false, none⟩

def resW3 : List (Nat × Option AccountData) :=
  okValue (lookupWithoutRewards dbW3 spW [5]) []

/-- Fixture for C4: the fee-sink address 1 also has a storage row, which
the overlay must shadow. -/
def dbW4 : DB :=
  { account := [⟨1, 55, 66, 77, false, none⟩]
    accountAsset := []
    asset := []
    accountApp := []
    app := []
    blockHeader := [] }

def resW4 : List (Nat × Option AccountData) :=
  okValue (lookupWithoutRewards dbW4 spW [1]) []

/-- Fixture for C5: address 8 has a live base row with a null
`account_data` column and no child rows. -/
def dbW5 : DB :=
  { account := [⟨8, 2, 0, 0, false, none⟩]
    accountAsset := []
    asset := []
    accountApp := []
    app := []
    blockHeader := [] }

def baseW5 : AccountRow := ⟨8, 2, 0, 0, false, none⟩

def resW5 : List (Nat × Option AccountData) :=
  okValue (lookupWithoutRewards dbW5 spW [8]) []

/-- Fixture for C6: asset 1 and app 1 live, ids 3 tombstoned, id 2
absent. -/
def dbW6 : DB :=
  { account := []
    accountAsset := []
    asset := [⟨1, 5, encodeP apW, false⟩, ⟨3, 6, encodeP apW, true⟩]
    accountApp := []
    app := [⟨1, 7, encodeP ppW, false⟩, ⟨3, 8, encodeP ppW, true⟩]
    blockHeader := [] }

def rowW6asset : AssetRow := ⟨1, 5, encodeP apW, false⟩

def rowW6app : AppRow := ⟨1, 7, encodeP ppW, false⟩

/-- Fixture for C7: a header stored at round 2. -/
def dbW7 : DB :=
  { account := [], accountAsset := [], asset := [], accountApp := [], app := []
    blockHeader := [⟨2, 0, 0, encodeP hdrW⟩] }

def rowW7 : BlockHeaderRow := ⟨2, 0, 0, encodeP hdrW⟩

/-- Fixture for C7, decode-failure case: a corrupt header at round 4. -/
def dbW7c : DB :=
  { account := [], accountAsset := [], asset := [], accountApp := [], app := []
    blockHeader := [⟨4, 0, 0, Payload.corrupt⟩] }

def rowW7c : BlockHeaderRow := ⟨4, 0, 0, Payload.corrupt⟩

/-- Fixture for C8. -/
def dbW8 : DB :=
  { account := [⟨9, 1, 0, 0, false, none⟩]
    accountAsset := []
    asset := [⟨1, 9, encodeP apW, false⟩]
    accountApp := []
    app := [⟨1, 9, encodeP ppW, false⟩]
    blockHeader := [⟨2, 0, 0, encodeP hdrW⟩] }

/-- Fixture for C9: the columns carry balances 2/3/4 while the stored
trimmed payload carries different balances, which must be ignored. -/
def tW9 : TrimmedAccountData :=
  { microAlgos := 999, rewardsBase := 888, rewardedMicroAlgos := 777,
    status := 1, voteID := 6 }

def baseW9 : AccountRow := ⟨7, 2, 3, 4, false, some (encodeP tW9)⟩

def dbW9 : DB :=
  { account := [⟨7, 2, 3, 4, false, some (encodeP tW9)⟩]
    accountAsset := []
    asset := []
    accountApp := []
    app := []
    blockHeader := [] }

def resW9 : List (Nat × Option AccountData) :=
  okValue (lookupWithoutRewards dbW9 spW [7]) []

/-- Fixture for C10: live app and local-state rows for address 5 whose
payloads use the non-UTF-8 key 0xff. -/
def dbW10 : DB :=
  { account := [⟨5, 0, 0, 0, false, none⟩]
    accountAsset := []
    asset := []
    accountApp := [⟨5, 30, encodeP lsW, false⟩]
    app := [⟨40, 5, encodeP ppW, false⟩]
    blockHeader := [] }

def baseW10 : AccountRow := ⟨5, 0, 0, 0, false, none⟩

def rowW10app : AppRow := ⟨40, 5, encodeP ppW, false⟩

def rowW10acc : AccountAppRow := ⟨5, 30, encodeP lsW, false⟩

def resW10 : List (Nat × Option AccountData) :=
  okValue (lookupWithoutRewards dbW10 spW [5]) []

/-! Basic list lemmas used throughout. -/

theorem memContains {l : List Nat} {a : Nat} (h : a ∈ l) : l.contains a = true :=
  List.elem_eq_true_of_mem h

theorem findq_append_some {α : Type} {p : α → Bool} {l1 l2 : List α} {x : α}
    (h : l1.find? p = some x) : (l1 ++ l2).find? p = some x := by
  rw [List.find?_append, h]; rfl

theorem findq_append_none {α : Type} {p : α → Bool} {l1 l2 : List α}
    (h : l1.find? p = none) : (l1 ++ l2).find? p = l2.find? p := by
  rw [List.find?_append, h]; rfl

theorem findq_filter {α : Type} (p q : α → Bool) :
    ∀ l : List α, (l.filter p).find? q = l.find? (fun x => p x && q x) := by
  intro l
  induction l with
  | nil => rfl
  | cons x xs ih =>
    cases hp : p x with
    | true =>
      cases hq : q x with
      | true => simp [List.filter_cons, List.find?, hp, hq]
      | false => simp [List.filter_cons, List.find?, hp, hq, ih]
    | false => simp [List.filter_cons, List.find?, hp, ih]

theorem findq_congr {α : Type} {p q : α → Bool} :
    ∀ {l : List α}, (∀ x ∈ l, p x = q x) → l.find? p = l.find? q := by
  intro l
  induction l with
  | nil => intro _; rfl
  | cons x xs ih =>
    intro h
    have hx := h x (List.mem_cons_self x xs)
    cases hq : q x with
    | true => simp [List.find?, hx, hq]
    | false =>
      simp [List.find?, hx, hq]
      exact ih (fun y hy => h y (List.mem_cons_of_mem x hy))

theorem findq_unique {α : Type} {p : α → Bool} :
    ∀ {l : List α} {x : α}, x ∈ l → p x = true →
      (∀ y ∈ l, p y = true → y = x) → l.find? p = some x := by
  intro l
  induction l with
  | nil => intro x hx; cases hx
  | cons z zs ih =>
    intro x hx hp huniq
    cases hz : p z with
    | true =>
      have hzx : z = x := huniq z (List.mem_cons_self z zs) hz
      subst hzx
      simp [List.find?, hz]
    | false =>
      have hxz : x ∈ zs := by
        cases hx with
        | head => rw [hp] at hz; exact Bool.noConfusion hz
        | tail _ hm => exact hm
      simp [List.find?, hz]
      exact ih hxz hp (fun y hy hpy => huniq y (List.mem_cons_of_mem z hy) hpy)

theorem filterq_filter {α : Type} (p q : α → Bool) :
    ∀ l : List α, (l.filter p).filter q = l.filter (fun x => p x && q x) := by
  intro l
  induction l with
  | nil => rfl
  | cons x xs ih =>
    cases hp : p x with
    | true =>
      cases hq : q x with
      | true => simp [List.filter_cons, hp, hq, ih]
      | false => simp [List.filter_cons, hp, hq, ih]
    | false => simp [List.filter_cons, hp, ih]

theorem findq_map_pair {β : Type} (c : β) :
    ∀ {m : List Nat} {a : Nat}, a ∈ m →
      ((m.map (fun x => (x, c))).find? (fun e => e.1 == a)) = some (a, c) := by
  intro m
  induction m with
  | nil => intro a ha; cases ha
  | cons x xs ih =>
    intro a ha
    by_cases hxa : x = a
    · subst hxa
      rw [List.map_cons]
      exact List.find?_cons_of_pos _ (by simp)
    · have ha2 : a ∈ xs := by
        cases ha with
        | head => exact absurd rfl hxa
        | tail _ hm => exact hm
      rw [List.map_cons, List.find?_cons_of_neg _ (by simp [hxa])]
      exact ih ha2

theorem map_map_fst {β : Type} (g : Nat → Nat × β) (hg : ∀ i, (g i).1 = i) :
    ∀ l : List Nat, (l.map g).map Prod.fst = l := by
  intro l
  induction l with
  | nil => rfl
  | cons x xs ih => simp [hg x, ih]

/-! Lemmas about the error-propagating map. -/

theorem mapME_cons_ok {α β : Type} {f : α → Except Err β} {x : α} {xs : List α}
    {out : List β} (h : mapME f (x :: xs) = Except.ok out) :
    ∃ y ys, f x = Except.ok y ∧ mapME f xs = Except.ok ys ∧ out = y :: ys := by
  unfold mapME at h
  split at h
  · exact Except.noConfusion h
  next y hy =>
    split at h
    · exact Except.noConfusion h
    next ys hys =>
      injection h with h2
      exact ⟨y, ys, hy, hys, h2.symm⟩

theorem mapME_mem_ok {α β : Type} {f : α → Except Err β} :
    ∀ {l : List α} {out : List β}, mapME f l = Except.ok out →
      ∀ x ∈ l, ∃ y, f x = Except.ok y ∧ y ∈ out := by
  intro l
  induction l with
  | nil => intro out _ x hx; cases hx
  | cons z zs ih =>
    intro out h x hx
    obtain ⟨y, ys, hz, hzs, rfl⟩ := mapME_cons_ok h
    cases hx with
    | head => exact ⟨y, hz, List.mem_cons_self _ _⟩
    | tail _ hm =>
      obtain ⟨y2, hy2, hy2m⟩ := ih hzs x hm
      exact ⟨y2, hy2, List.mem_cons_of_mem _ hy2m⟩

theorem mapME_keys {α β γ : Type} {f : α → Except Err (γ × β)} {key : α → γ}
    (hk : ∀ r y, f r = Except.ok y → y.1 = key r) :
    ∀ {l : List α} {out : List (γ × β)}, mapME f l = Except.ok out →
      out.map Prod.fst = l.map key := by
  intro l
  induction l with
  | nil =>
    intro out h
    unfold mapME at h
    injection h with h2
    rw [← h2]; rfl
  | cons z zs ih =>
    intro out h
    obtain ⟨y, ys, hz, hzs, rfl⟩ := mapME_cons_ok h
    simp [List.map_cons, hk z y hz, ih hzs]

theorem lookupEntry_ok {β : Type} {g : Nat → Except Err β} {a : Nat} {y : Nat × β}
    (h : lookupEntry g a = Except.ok y) : ∃ d, g a = Except.ok d ∧ y = (a, d) := by
  unfold lookupEntry at h
  split at h
  · exact Except.noConfusion h
  next d hd => injection h with h2; exact ⟨d, hd, h2.symm⟩

theorem mapME_entries_find {β : Type} {g : Nat → Except Err β} :
    ∀ {l : List Nat} {out : List (Nat × β)},
      mapME (lookupEntry g) l = Except.ok out →
      ∀ a ∈ l, ∃ d, g a = Except.ok d ∧
        out.find? (fun e => e.1 == a) = some (a, d) := by
  intro l
  induction l with
  | nil => intro out _ a ha; cases ha
  | cons z zs ih =>
    intro out h a ha
    obtain ⟨y, ys, hz, hzs, rfl⟩ := mapME_cons_ok h
    obtain ⟨d, hgz, rfl⟩ := lookupEntry_ok hz
    by_cases hza : z = a
    · subst hza
      exact ⟨d, hgz, List.find?_cons_of_pos _ (by simp)⟩
    · have ha2 : a ∈ zs := by
        cases ha with
        | head => exact absurd rfl hza
        | tail _ hm => exact hm
      obtain ⟨d2, hd2, hfind⟩ := ih hzs a ha2
      refine ⟨d2, hd2, ?_⟩
      rw [List.find?_cons_of_neg _ (by simp [hza])]
      exact hfind

theorem mapME_entries_fst {β : Type} {g : Nat → Except Err β} {l : List Nat}
    {out : List (Nat × β)}
    (h : mapME (lookupEntry g) l = Except.ok out) :
    out.map Prod.fst = l := by
  have hk : ∀ r y, lookupEntry g r = Except.ok y → y.1 = r := by
    intro r y hy
    obtain ⟨d, _, rfl⟩ := lookupEntry_ok hy
    rfl
  have := mapME_keys hk h
  simpa using this

/-! Decoded child entries keep the row's creatable id as key. -/

theorem assetEntry_key {r : AssetRow} {y : Nat × AssetParams}
    (h : assetEntry r = Except.ok y) : y.1 = r.index := by
  unfold assetEntry at h
  split at h
  · exact Except.noConfusion h
  · injection h with h2; rw [← h2]

theorem localStateEntry_key {r : AccountAppRow} {y : Nat × AppLocalState}
    (h : localStateEntry r = Except.ok y) : y.1 = r.app := by
  unfold localStateEntry at h
  split at h
  · exact Except.noConfusion h
  · injection h with h2; rw [← h2]

theorem appEntry_key {r : AppRow} {y : Nat × AppParams}
    (h : appEntry r = Except.ok y) : y.1 = r.index := by
  unfold appEntry at h
  split at h
  · exact Except.noConfusion h
  · injection h with h2; rw [← h2]

/-! Relating the batched queries over the whole address set to the
per-address live-row selectors. -/

theorem mem_storageAddrs {sp : SpecialAddresses} {addrs : List Nat} {a : Nat}
    (ha : a ∈ addrs) (hsp : isSpecial sp a = false) :
    a ∈ storageAddrs sp addrs := by
  unfold storageAddrs
  exact List.mem_filter.mpr ⟨ha, by simp [hsp]⟩

theorem storageAddrs_not_special {sp : SpecialAddresses} {addrs : List Nat} {a : Nat}
    (ha : a ∈ storageAddrs sp addrs) : isSpecial sp a = false := by
  have h := (List.mem_filter.mp ha).2
  simpa using h

theorem filter_batch {α : Type} (keyA : α → Nat) (del : α → Bool) (l : List α)
    {s : List Nat} {a : Nat} (ha : a ∈ s) :
    (l.filter (fun r => s.contains (keyA r) && !del r)).filter (fun r => keyA r == a)
      = l.filter (fun r => keyA r == a && !del r) := by
  rw [filterq_filter]
  apply List.filter_congr
  intro r _
  cases hr : keyA r == a with
  | true =>
    have hra : keyA r = a := by simpa using hr
    simp [hr, hra, ha]
  | false => simp [hr]

theorem find_batch {α : Type} (keyA : α → Nat) (del : α → Bool) (l : List α)
    {s : List Nat} {a : Nat} (ha : a ∈ s) :
    (l.filter (fun r => s.contains (keyA r) && !del r)).find? (fun r => keyA r == a)
      = l.find? (fun r => keyA r == a && !del r) := by
  rw [findq_filter]
  apply findq_congr
  intro r _
  cases hr : keyA r == a with
  | true =>
    have hra : keyA r = a := by simpa using hr
    simp [hr, hra, ha]
  | false => simp [hr]

theorem batched_find_base {db : DB} {s : List Nat} {a : Nat} (ha : a ∈ s) :
    (batchedAccountRows db s).find? (fun r => r.addr == a) = liveBaseRow db a :=
  find_batch (fun r => r.addr) (fun r => r.deleted) db.account ha

theorem batched_filter_holdings {db : DB} {s : List Nat} {a : Nat} (ha : a ∈ s) :
    (batchedHoldingRows db s).filter (fun r => r.addr == a) = liveHoldings db a :=
  filter_batch (fun r => r.addr) (fun r => r.deleted) db.accountAsset ha

theorem batched_filter_assets {db : DB} {s : List Nat} {a : Nat} (ha : a ∈ s) :
    (batchedAssetRows db s).filter (fun r => r.creatorAddr == a) = liveAssetCreations db a :=
  filter_batch (fun r => r.creatorAddr) (fun r => r.deleted) db.asset ha

theorem batched_filter_localstates {db : DB} {s : List Nat} {a : Nat} (ha : a ∈ s) :
    (batchedLocalStateRows db s).filter (fun r => r.addr == a) = liveLocalStates db a :=
  filter_batch (fun r => r.addr) (fun r => r.deleted) db.accountApp ha

theorem batched_filter_apps {db : DB} {s : List Nat} {a : Nat} (ha : a ∈ s) :
    (batchedAppRows db s).filter (fun r => r.creator == a) = liveAppCreations db a :=
  filter_batch (fun r => r.creator) (fun r => r.deleted) db.app ha

/-! Inversion of the assembler and of the full lookup. -/

theorem assemble_ok_inv {B : List AccountRow} {H : List AccountAssetRow}
    {A : List AssetRow} {L : List AccountAppRow} {P : List AppRow} {a : Nat}
    {d : Option AccountData} (h : assembleAccount B H A L P a = Except.ok d) :
    (B.find? (fun r => r.addr == a) = none ∧ d = none) ∨
    ∃ base t ap ls pp,
      B.find? (fun r => r.addr == a) = some base ∧
      trimmedOf base = Except.ok t ∧
      mapME assetEntry (A.filter (fun r => r.creatorAddr == a)) = Except.ok ap ∧
      mapME localStateEntry (L.filter (fun r => r.addr == a)) = Except.ok ls ∧
      mapME appEntry (P.filter (fun r => r.creator == a)) = Except.ok pp ∧
      d = some
        { microAlgos := base.microalgos
          rewardsBase := base.rewardsbase
          rewardedMicroAlgos := base.rewardsTotal
          status := t.status
          voteID := t.voteID
          assetParams := ap
          assets := (H.filter (fun r => r.addr == a)).map holdingEntry
          appLocalStates := ls
          appParams := pp } := by
  unfold assembleAccount at h
  split at h
  next hfind =>
    injection h with h2
    exact Or.inl ⟨hfind, h2.symm⟩
  next base hfind =>
    split at h
    · exact Except.noConfusion h
    next t ht =>
      split at h
      · exact Except.noConfusion h
      next ap hap =>
        split at h
        · exact Except.noConfusion h
        next ls hls =>
          split at h
          · exact Except.noConfusion h
          next pp hpp =>
            injection h with h2
            exact Or.inr ⟨base, t, ap, ls, pp, hfind, ht, hap, hls, hpp, h2.symm⟩

theorem lookup_ok_inv {db : DB} {sp : SpecialAddresses} {addrs : List Nat}
    {res : List (Nat × Option AccountData)}
    (h : lookupWithoutRewards db sp addrs = Except.ok res) :
    ∃ se, mapME (lookupEntry (assembleAccount
        (batchedAccountRows db (storageAddrs sp addrs))
        (batchedHoldingRows db (storageAddrs sp addrs))
        (batchedAssetRows db (storageAddrs sp addrs))
        (batchedLocalStateRows db (storageAddrs sp addrs))
        (batchedAppRows db (storageAddrs sp addrs)))) (storageAddrs sp addrs)
        = Except.ok se ∧
      res = se ++ overlayEntries sp addrs := by
  unfold lookupWithoutRewards at h
  split at h
  · exact Except.noConfusion h
  next se hse =>
    injection h with h2
    exact ⟨se, hse, h2.symm⟩

/-! Main characterisation of one address's result in a successful lookup. -/

theorem lookup_absent {db : DB} {sp : SpecialAddresses} {addrs : List Nat}
    {res : List (Nat × Option AccountData)} {a : Nat}
    (h : lookupWithoutRewards db sp addrs = Except.ok res)
    (ha : a ∈ addrs) (hsp : isSpecial sp a = false)
    (hbase : liveBaseRow db a = none) :
    resLookup res a = none := by
  obtain ⟨se, hse, rfl⟩ := lookup_ok_inv h
  have has : a ∈ storageAddrs sp addrs := mem_storageAddrs ha hsp
  obtain ⟨d, hd, hfind⟩ := mapME_entries_find hse a has
  have hdn : d = none := by
    rcases assemble_ok_inv hd with ⟨_, hdn⟩ | ⟨base, t, ap, ls, pp, hf, _⟩
    · exact hdn
    · rw [batched_find_base has, hbase] at hf
      exact Option.noConfusion hf
  subst hdn
  unfold resLookup
  rw [findq_append_some hfind]

theorem lookup_present {db : DB} {sp : SpecialAddresses} {addrs : List Nat}
    {res : List (Nat × Option AccountData)} {a : Nat} {base : AccountRow}
    (h : lookupWithoutRewards db sp addrs = Except.ok res)
    (ha : a ∈ addrs) (hsp : isSpecial sp a = false)
    (hbase : liveBaseRow db a = some base) :
    ∃ t ap ls pp,
      trimmedOf base = Except.ok t ∧
      mapME assetEntry (liveAssetCreations db a) = Except.ok ap ∧
      mapME localStateEntry (liveLocalStates db a) = Except.ok ls ∧
      mapME appEntry (liveAppCreations db a) = Except.ok pp ∧
      resLookup res a = some
        { microAlgos := base.microalgos
          rewardsBase := base.rewardsbase
          rewardedMicroAlgos := base.rewardsTotal
          status := t.status
          voteID := t.voteID
          assetParams := ap
          assets := (liveHoldings db a).map holdingEntry
          appLocalStates := ls
          appParams := pp } := by
  obtain ⟨se, hse, rfl⟩ := lookup_ok_inv h
  have has : a ∈ storageAddrs sp addrs := mem_storageAddrs ha hsp
  obtain ⟨d, hd, hfind⟩ := mapME_entries_find hse a has
  rcases assemble_ok_inv hd with ⟨hf, _⟩ | ⟨base2, t, ap, ls, pp, hf, ht, hap, hls, hpp, hds⟩
  · rw [batched_find_base has, hbase] at hf
    exact Option.noConfusion hf
  · rw [batched_find_base has, hbase] at hf
    injection hf with hb2
    subst hb2
    rw [batched_filter_assets has] at hap
    rw [batched_filter_localstates has] at hls
    rw [batched_filter_apps has] at hpp
    rw [batched_filter_holdings has] at hds
    refine ⟨t, ap, ls, pp, ht, hap, hls, hpp, ?_⟩
    unfold resLookup
    rw [findq_append_some hfind, hds]

theorem lookup_overlay {db : DB} {sp : SpecialAddresses} {addrs : List Nat}
    {res : List (Nat × Option AccountData)} {a : Nat}
    (h : lookupWithoutRewards db sp addrs = Except.ok res)
    (ha : a ∈ addrs) (hsp : isSpecial sp a = true) :
    resLookup res a = some overlayRecord := by
  obtain ⟨se, hse, rfl⟩ := lookup_ok_inv h
  have hfst : se.map Prod.fst = storageAddrs sp addrs := mapME_entries_fst hse
  have hnone : se.find? (fun e => e.1 == a) = none := by
    apply List.find?_eq_none.mpr
    intro e he hpe
    have hmem : e.1 ∈ storageAddrs sp addrs := by
      rw [← hfst]; exact List.mem_map_of_mem Prod.fst he
    have hns := storageAddrs_not_special hmem
    have hea : e.1 = a := by simpa using hpe
    rw [hea, hsp] at hns
    exact Bool.noConfusion hns
  have hmemov : a ∈ addrs.filter (fun x => isSpecial sp x) :=
    List.mem_filter.mpr ⟨ha, by simp [hsp]⟩
  unfold resLookup
  rw [findq_append_none hnone]
  unfold overlayEntries
  rw [findq_map_pair (some overlayRecord) hmemov]

theorem lookup_complete {db : DB} {sp : SpecialAddresses} {addrs : List Nat}
    {res : List (Nat × Option AccountData)}
    (h : lookupWithoutRewards db sp addrs = Except.ok res) :
    ∀ a ∈ addrs, ∃ d, (a, d) ∈ res := by
  obtain ⟨se, hse, rfl⟩ := lookup_ok_inv h
  intro a ha
  cases hsp : isSpecial sp a with
  | false =>
    obtain ⟨d, _, hfind⟩ := mapME_entries_find hse a (mem_storageAddrs ha hsp)
    exact ⟨d, List.mem_append_left _ (List.mem_of_find?_eq_some hfind)⟩
  | true =>
    refine ⟨some overlayRecord, List.mem_append_right _ ?_⟩
    unfold overlayEntries
    exact List.mem_map_of_mem _ (List.mem_filter.mpr ⟨ha, by simp [hsp]⟩)

/-! Keys of the four creatable maps. -/

theorem holdings_keys (db : DB) (a : Nat) :
    ((liveHoldings db a).map holdingEntry).map Prod.fst = holdingIds db a := by
  rw [List.map_map]; rfl

theorem assetParams_keys {db : DB} {a : Nat} {ap : List (Nat × AssetParams)}
    (h : mapME assetEntry (liveAssetCreations db a) = Except.ok ap) :
    ap.map Prod.fst = assetIds db a :=
  mapME_keys (fun _ _ hy => assetEntry_key hy) h

theorem localStates_keys {db : DB} {a : Nat} {ls : List (Nat × AppLocalState)}
    (h : mapME localStateEntry (liveLocalStates db a) = Except.ok ls) :
    ls.map Prod.fst = localStateIds db a :=
  mapME_keys (fun _ _ hy => localStateEntry_key hy) h

theorem appParams_keys {db : DB} {a : Nat} {pp : List (Nat × AppParams)}
    (h : mapME appEntry (liveAppCreations db a) = Except.ok pp) :
    pp.map Prod.fst = appCreationIds db a :=
  mapME_keys (fun _ _ hy => appEntry_key hy) h

/-- Under the relation's composite primary key (restricted to one
address, the creatable ids are pairwise distinct), a tombstoned row's id
never appears among the live ids. -/
theorem tombstoned_excluded {α : Type} (keyA keyI : α → Nat) (del : α → Bool)
    {l : List α} {a : Nat} {r : α}
    (hpk : ((l.filter (fun x => keyA x == a)).map keyI).Nodup)
    (hr : r ∈ l) (hra : keyA r = a) (hrd : del r = true) :
    keyI r ∉ (l.filter (fun x => keyA x == a && !del x)).map keyI := by
  intro hmem
  obtain ⟨r2, hr2mem, hr2id⟩ := List.mem_map.mp hmem
  have hr2 := List.mem_filter.mp hr2mem
  have hr2a : keyA r2 = a := by
    have := hr2.2
    simp at this
    exact this.1
  have hr2d : del r2 = false := by
    have := hr2.2
    simp at this
    exact this.2
  have h1 : r ∈ l.filter (fun x => keyA x == a) :=
    List.mem_filter.mpr ⟨hr, by simp [hra]⟩
  have h2 : r2 ∈ l.filter (fun x => keyA x == a) :=
    List.mem_filter.mpr ⟨hr2.1, by simp [hr2a]⟩
  have heq : r2 = r := List.inj_on_of_nodup_map hpk h2 h1 hr2id
  rw [heq] at hr2d
  rw [hrd] at hr2d
  exact Bool.noConfusion hr2d

/-! Creator-resolver lemmas. -/

theorem mem_map_apply {α β : Type} (g : α → β) {l : List α} {x : α} (hx : x ∈ l) {y : β}
    (hy : g x = y) : y ∈ l.map g := hy ▸ List.mem_map_of_mem g hx

theorem assetEntries_fst (db : DB) (ids : List Nat) :
    (assetCreatorEntries db ids).map Prod.fst = ids := by
  unfold assetCreatorEntries
  apply map_map_fst
  intro i
  cases hf : (db.asset.filter (fun r => ids.contains r.index && !r.deleted)).find?
      (fun r => r.index == i) with
  | none => simp [hf]
  | some r => simp [hf]

theorem appEntries_fst (db : DB) (ids : List Nat) :
    (appCreatorEntries db ids).map Prod.fst = ids := by
  unfold appCreatorEntries
  apply map_map_fst
  intro i
  cases hf : (db.app.filter (fun r => ids.contains r.index && !r.deleted)).find?
      (fun r => r.index == i) with
  | none => simp [hf]
  | some r => simp [hf]

theorem assetEntries_live {db : DB} {ids : List Nat} {i : Nat} {r : AssetRow}
    (hi : i ∈ ids) (hu : uniqueLiveAsset db i r) :
    (i, { address := r.creatorAddr, existsFlag := true }) ∈ assetCreatorEntries db ids := by
  obtain ⟨hmem, hidx, hdel, huniq⟩ := hu
  have hf : (db.asset.filter (fun x => ids.contains x.index && !x.deleted)).find?
      (fun x => x.index == i) = some r := by
    rw [findq_filter]
    have hcong : db.asset.find?
          (fun x => (ids.contains x.index && !x.deleted) && (x.index == i))
        = db.asset.find? (fun x => (x.index == i) && !x.deleted) := by
      apply findq_congr
      intro x _
      cases hx : x.index == i with
      | true =>
        have hxi : x.index = i := by simpa using hx
        simp [hx, hxi, hi]
      | false => simp [hx]
    rw [hcong]
    exact findq_unique hmem (by simp [hidx, hdel])
      (fun y hy hpy => by
        have hp := hpy
        simp at hp
        exact huniq y hy hp.1 (by simpa using hp.2))
  unfold assetCreatorEntries
  refine mem_map_apply _ hi ?_
  simp only [hf]

theorem assetEntries_dead {db : DB} {ids : List Nat} {i : Nat}
    (hi : i ∈ ids) (hn : noLiveAsset db i) :
    (i, { address := 0, existsFlag := false }) ∈ assetCreatorEntries db ids := by
  have hf : (db.asset.filter (fun x => ids.contains x.index && !x.deleted)).find?
      (fun x => x.index == i) = none := by
    rw [findq_filter]
    apply List.find?_eq_none.mpr
    intro x hx hpx
    simp at hpx
    have := hn x hx hpx.2
    rw [this] at hpx
    simp at hpx
  unfold assetCreatorEntries
  refine mem_map_apply _ hi ?_
  simp only [hf]

theorem appEntries_live {db : DB} {ids : List Nat} {i : Nat} {r : AppRow}
    (hi : i ∈ ids) (hu : uniqueLiveApp db i r) :
    (i, { address := r.creator, existsFlag := true }) ∈ appCreatorEntries db ids := by
  obtain ⟨hmem, hidx, hdel, huniq⟩ := hu
  have hf : (db.app.filter (fun x => ids.contains x.index && !x.deleted)).find?
      (fun x => x.index == i) = some r := by
    rw [findq_filter]
    have hcong : db.app.find?
          (fun x => (ids.contains x.index && !x.deleted) && (x.index == i))
        = db.app.find? (fun x => (x.index == i) && !x.deleted) := by
      apply findq_congr
      intro x _
      cases hx : x.index == i with
      | true =>
        have hxi : x.index = i := by simpa using hx
        simp [hx, hxi, hi]
      | false => simp [hx]
    rw [hcong]
    exact findq_unique hmem (by simp [hidx, hdel])
      (fun y hy hpy => by
        have hp := hpy
        simp at hp
        exact huniq y hy hp.1 (by simpa using hp.2))
  unfold appCreatorEntries
  refine mem_map_apply _ hi ?_
  simp only [hf]

theorem appEntries_dead {db : DB} {ids : List Nat} {i : Nat}
    (hi : i ∈ ids) (hn : noLiveApp db i) :
    (i, { address := 0, existsFlag := false }) ∈ appCreatorEntries db ids := by
  have hf : (db.app.filter (fun x => ids.contains x.index && !x.deleted)).find?
      (fun x => x.index == i) = none := by
    rw [findq_filter]
    apply List.find?_eq_none.mpr
    intro x hx hpx
    simp at hpx
    have := hn x hx hpx.2
    rw [this] at hpx
    simp at hpx
  unfold appCreatorEntries
  refine mem_map_apply _ hi ?_
  simp only [hf]

/-! The claims. -/

/-- C1: every requested address whose base account row is absent or
tombstoned, and which is not a special overlay address, maps to
absent/nil in the result of `lookupWithoutRewards`, even when live child
rows exist for that address (the statement quantifies over arbitrary
databases, so the child relations may hold any live rows). -/
theorem claimC1_deleted_or_missing_base_absent (db : DB) (sp : SpecialAddresses)
    (addrs : List Nat) (res : List (Nat × Option AccountData)) (a : Nat)
    (h : lookupWithoutRewards db sp addrs = Except.ok res)
    (ha : a ∈ addrs) (hsp : isSpecial sp a = false)
    (hbase : ∀ r ∈ db.account, r.addr = a → r.deleted = true) :
    resLookup res a = none := by
  apply lookup_absent h ha hsp
  unfold liveBaseRow
  apply List.find?_eq_none.mpr
  intro r hr hp
  simp at hp
  have := hbase r hr hp.1
  rw [this] at hp
  simp at hp

/-- C2: in one `lookupWithoutRewards` call over a whole address batch,
every live address receives exactly the creatable ids of its own live
child rows in each of the four child relations — in particular, another
address's seeded children (whose ids are disjoint from its own) never
appear in its maps. -/
theorem claimC2_batch_no_cross_contamination (db : DB) (sp : SpecialAddresses)
    (addrs : List Nat) (res : List (Nat × Option AccountData)) (a : Nat)
    (base : AccountRow)
    (h : lookupWithoutRewards db sp addrs = Except.ok res)
    (ha : a ∈ addrs) (hsp : isSpecial sp a = false)
    (hbase : liveBaseRow db a = some base) :
    ∃ rec, resLookup res a = some rec ∧
      rec.assets.map Prod.fst = holdingIds db a ∧
      rec.assetParams.map Prod.fst = assetIds db a ∧
      rec.appLocalStates.map Prod.fst = localStateIds db a ∧
      rec.appParams.map Prod.fst = appCreationIds db a ∧
      rec.assets.length = (liveHoldings db a).length ∧
      rec.assetParams.length = (liveAssetCreations db a).length ∧
      rec.appLocalStates.length = (liveLocalStates db a).length ∧
      rec.appParams.length = (liveAppCreations db a).length ∧
      (∀ b : Nat, b ≠ a →
        (∀ i ∈ holdingIds db b, i ∉ holdingIds db a → i ∉ rec.assets.map Prod.fst) ∧
        (∀ i ∈ assetIds db b, i ∉ assetIds db a → i ∉ rec.assetParams.map Prod.fst) ∧
        (∀ i ∈ localStateIds db b, i ∉ localStateIds db a →
          i ∉ rec.appLocalStates.map Prod.fst) ∧
        (∀ i ∈ appCreationIds db b, i ∉ appCreationIds db a →
          i ∉ rec.appParams.map Prod.fst)) := by
  obtain ⟨t, ap, ls, pp, _, hap, hls, hpp, hres⟩ := lookup_present h ha hsp hbase
  have k1 : ((liveHoldings db a).map holdingEntry).map Prod.fst = holdingIds db a :=
    holdings_keys db a
  have k2 : ap.map Prod.fst = assetIds db a := assetParams_keys hap
  have k3 : ls.map Prod.fst = localStateIds db a := localStates_keys hls
  have k4 : pp.map Prod.fst = appCreationIds db a := appParams_keys hpp
  refine ⟨_, hres, k1, k2, k3, k4, ?_, ?_, ?_, ?_, ?_⟩
  · exact List.length_map _ _
  · have := congrArg List.length k2
    simpa [assetIds] using this
  · have := congrArg List.length k3
    simpa [localStateIds] using this
  · have := congrArg List.length k4
    simpa [appCreationIds] using this
  · intro b _
    refine ⟨?_, ?_, ?_, ?_⟩
    · intro i _ hnot
      rw [k1]; exact hnot
    · intro i _ hnot
      rw [k2]; exact hnot
    · intro i _ hnot
      rw [k3]; exact hnot
    · intro i _ hnot
      rw [k4]; exact hnot

/-- C3: for a live address, each of the four creatable maps has exactly
one entry per live child row of its relation, keyed by creatable id;
tombstoned rows are excluded (under the relation's composite primary
key), and a relation with no live rows yields a present, empty map. -/
theorem claimC3_tombstone_filtering_per_relation (db : DB) (sp : SpecialAddresses)
    (addrs : List Nat) (res : List (Nat × Option AccountData)) (a : Nat)
    (base : AccountRow)
    (h : lookupWithoutRewards db sp addrs = Except.ok res)
    (ha : a ∈ addrs) (hsp : isSpecial sp a = false)
    (hbase : liveBaseRow db a = some base)
    (hpk1 : ((db.accountAsset.filter (fun x => x.addr == a)).map (fun x => x.assetid)).Nodup)
    (hpk2 : ((db.asset.filter (fun x => x.creatorAddr == a)).map (fun x => x.index)).Nodup)
    (hpk3 : ((db.accountApp.filter (fun x => x.addr == a)).map (fun x => x.app)).Nodup)
    (hpk4 : ((db.app.filter (fun x => x.creator == a)).map (fun x => x.index)).Nodup) :
    ∃ rec, resLookup res a = some rec ∧
      rec.assets.length = (liveHoldings db a).length ∧
      rec.assetParams.length = (liveAssetCreations db a).length ∧
      rec.appLocalStates.length = (liveLocalStates db a).length ∧
      rec.appParams.length = (liveAppCreations db a).length ∧
      rec.assets.map Prod.fst = holdingIds db a ∧
      rec.assetParams.map Prod.fst = assetIds db a ∧
      rec.appLocalStates.map Prod.fst = localStateIds db a ∧
      rec.appParams.map Prod.fst = appCreationIds db a ∧
      (∀ r ∈ db.accountAsset, r.addr = a → r.deleted = true →
        r.assetid ∉ rec.assets.map Prod.fst) ∧
      (∀ r ∈ db.asset, r.creatorAddr = a → r.deleted = true →
        r.index ∉ rec.assetParams.map Prod.fst) ∧
      (∀ r ∈ db.accountApp, r.addr = a → r.deleted = true →
        r.app ∉ rec.appLocalStates.map Prod.fst) ∧
      (∀ r ∈ db.app, r.creator = a → r.deleted = true →
        r.index ∉ rec.appParams.map Prod.fst) ∧
      (liveHoldings db a = [] → rec.assets = []) ∧
      (liveAssetCreations db a = [] → rec.assetParams = []) ∧
      (liveLocalStates db a = [] → rec.appLocalStates = []) ∧
      (liveAppCreations db a = [] → rec.appParams = []) := by
  obtain ⟨t, ap, ls, pp, _, hap, hls, hpp, hres⟩ := lookup_present h ha hsp hbase
  have k1 : ((liveHoldings db a).map holdingEntry).map Prod.fst = holdingIds db a :=
    holdings_keys db a
  have k2 : ap.map Prod.fst = assetIds db a := assetParams_keys hap
  have k3 : ls.map Prod.fst = localStateIds db a := localStates_keys hls
  have k4 : pp.map Prod.fst = appCreationIds db a := appParams_keys hpp
  refine ⟨_, hres, ?_, ?_, ?_, ?_, k1, k2, k3, k4, ?_, ?_, ?_, ?_, ?_, ?_, ?_, ?_⟩
  · exact List.length_map _ _
  · have := congrArg List.length k2
    simpa [assetIds] using this
  · have := congrArg List.length k3
    simpa [localStateIds] using this
  · have := congrArg List.length k4
    simpa [appCreationIds] using this
  · intro r hr hra hrd
    rw [k1]
    exact tombstoned_excluded (fun x => x.addr) (fun x => x.assetid)
      (fun x => x.deleted) hpk1 hr hra hrd
  · intro r hr hra hrd
    rw [k2]
    exact tombstoned_excluded (fun x => x.creatorAddr) (fun x => x.index)
      (fun x => x.deleted) hpk2 hr hra hrd
  · intro r hr hra hrd
    rw [k3]
    exact tombstoned_excluded (fun x => x.addr) (fun x => x.app)
      (fun x => x.deleted) hpk3 hr hra hrd
  · intro r hr hra hrd
    rw [k4]
    exact tombstoned_excluded (fun x => x.creator) (fun x => x.index)
      (fun x => x.deleted) hpk4 hr hra hrd
  · intro he
    show (liveHoldings db a).map holdingEntry = []
    rw [he]
    rfl
  · intro he
    show ap = []
    rw [he] at hap
    injection hap with h2
    exact h2.symm
  · intro he
    show ls = []
    rw [he] at hls
    injection hls with h2
    exact h2.symm
  · intro he
    show pp = []
    rw [he] at hpp
    injection hpp with h2
    exact h2.symm

/-- C4: every requested address configured in the special-address
overlay resolves to the synthetic overlay record — the synthetic balance
with rewards fields and all four creatable maps at their empty defaults —
regardless of what the storage relations contain (the database is
universally quantified, so a storage row for the address may or may not
exist). -/
theorem claimC4_special_address_overlay (db : DB) (sp : SpecialAddresses)
    (addrs : List Nat) (res : List (Nat × Option AccountData)) (a : Nat)
    (h : lookupWithoutRewards db sp addrs = Except.ok res)
    (ha : a ∈ addrs) (hsp : isSpecial sp a = true) :
    resLookup res a = some overlayRecord ∧
    overlayRecord.microAlgos = syntheticBalance ∧
    overlayRecord.rewardsBase = 0 ∧
    overlayRecord.rewardedMicroAlgos = 0 ∧
    overlayRecord.assetParams = [] ∧
    overlayRecord.assets = [] ∧
    overlayRecord.appLocalStates = [] ∧
    overlayRecord.appParams = [] :=
  ⟨lookup_overlay h ha hsp, rfl, rfl, rfl, rfl, rfl, rfl, rfl⟩

/-- C5: an address whose base row is live but whose `account_data`
column is null (and which has no live child rows) resolves, without
error, to a present record built from the row's own balance and rewards
columns, all remaining payload-derived fields zero, and four empty
creatable maps. -/
theorem claimC5_null_account_data_default (db : DB) (sp : SpecialAddresses)
    (addrs : List Nat) (res : List (Nat × Option AccountData)) (a : Nat)
    (base : AccountRow)
    (h : lookupWithoutRewards db sp addrs = Except.ok res)
    (ha : a ∈ addrs) (hsp : isSpecial sp a = false)
    (hbase : liveBaseRow db a = some base)
    (hnull : base.accountData = none)
    (hh : liveHoldings db a = []) (hac : liveAssetCreations db a = [])
    (hlc : liveLocalStates db a = []) (hpc : liveAppCreations db a = []) :
    resLookup res a = some
      { microAlgos := base.microalgos
        rewardsBase := base.rewardsbase
        rewardedMicroAlgos := base.rewardsTotal
        status := 0
        voteID := 0
        assetParams := []
        assets := []
        appLocalStates := []
        appParams := [] } := by
  obtain ⟨t, ap, ls, pp, ht, hap, hls, hpp, hres⟩ := lookup_present h ha hsp hbase
  have htd : t = defaultTrimmed := by
    unfold trimmedOf at ht
    rw [hnull] at ht
    injection ht with h2
    exact h2.symm
  have hap2 : ap = [] := by
    rw [hac] at hap
    injection hap with h2
    exact h2.symm
  have hls2 : ls = [] := by
    rw [hlc] at hls
    injection hls with h2
    exact h2.symm
  have hpp2 : pp = [] := by
    rw [hpc] at hpp
    injection hpp with h2
    exact h2.symm
  rw [hres, htd, hap2, hls2, hpp2, hh]
  rfl

/-- C9: for a live base row, the balance and rewards fields of the
returned record come from the row's dedicated columns, not from the
encoded `account_data` payload: whatever balance values the stored
trimmed payload carries, the record equals the columns there, while the
payload only supplies the non-balance fields. -/
theorem claimC9_balance_from_columns (db : DB) (sp : SpecialAddresses)
    (addrs : List Nat) (res : List (Nat × Option AccountData)) (a : Nat)
    (base : AccountRow) (t : TrimmedAccountData)
    (h : lookupWithoutRewards db sp addrs = Except.ok res)
    (ha : a ∈ addrs) (hsp : isSpecial sp a = false)
    (hbase : liveBaseRow db a = some base)
    (hpayload : base.accountData = some (encodeP t)) :
    ∃ rec, resLookup res a = some rec ∧
      rec.microAlgos = base.microalgos ∧
      rec.rewardsBase = base.rewardsbase ∧
      rec.rewardedMicroAlgos = base.rewardsTotal ∧
      rec.status = t.status ∧
      rec.voteID = t.voteID := by
  obtain ⟨t2, ap, ls, pp, ht, hap, hls, hpp, hres⟩ := lookup_present h ha hsp hbase
  have ht2 : t2 = t := by
    unfold trimmedOf at ht
    rw [hpayload] at ht
    unfold encodeP decodeE at ht
    injection ht with h2
    exact h2.symm
  subst ht2
  exact ⟨_, hres, rfl, rfl, rfl, rfl, rfl⟩

/-- C10: app params and app local-state payloads round-trip through the
encode primitive and the lookup: a live `app` or `account_app` row whose
payload column is the encoding of some value yields exactly that value in
the returned map, keyed by its creatable id — including values whose
key-value maps use non-UTF-8 byte-string keys such as 0xff. -/
theorem claimC10_app_state_roundtrip (db : DB) (sp : SpecialAddresses)
    (addrs : List Nat) (res : List (Nat × Option AccountData)) (a : Nat)
    (base : AccountRow)
    (h : lookupWithoutRewards db sp addrs = Except.ok res)
    (ha : a ∈ addrs) (hsp : isSpecial sp a = false)
    (hbase : liveBaseRow db a = some base) :
    (∀ r ∈ db.app, r.creator = a → r.deleted = false →
      ∀ p : AppParams, r.params = encodeP p →
        ∃ rec, resLookup res a = some rec ∧ (r.index, p) ∈ rec.appParams) ∧
    (∀ r ∈ db.accountApp, r.addr = a → r.deleted = false →
      ∀ q : AppLocalState, r.localstate = encodeP q →
        ∃ rec, resLookup res a = some rec ∧ (r.app, q) ∈ rec.appLocalStates) := by
  obtain ⟨t, ap, ls, pp, _, hap, hls, hpp, hres⟩ := lookup_present h ha hsp hbase
  constructor
  · intro r hr hra hrd p hp
    have hrl : r ∈ liveAppCreations db a :=
      List.mem_filter.mpr ⟨hr, by simp [hra, hrd]⟩
    obtain ⟨y, hy, hym⟩ := mapME_mem_ok hpp r hrl
    have hyv : y = (r.index, p) := by
      unfold appEntry at hy
      rw [hp] at hy
      unfold encodeP decodeE at hy
      injection hy with h2
      exact h2.symm
    refine ⟨_, hres, ?_⟩
    show (r.index, p) ∈ pp
    exact hyv ▸ hym
  · intro r hr hra hrd q hq
    have hrl : r ∈ liveLocalStates db a :=
      List.mem_filter.mpr ⟨hr, by simp [hra, hrd]⟩
    obtain ⟨y, hy, hym⟩ := mapME_mem_ok hls r hrl
    have hyv : y = (r.app, q) := by
      unfold localStateEntry at hy
      rw [hq] at hy
      unfold encodeP decodeE at hy
      injection hy with h2
      exact h2.symm
    refine ⟨_, hres, ?_⟩
    show (r.app, q) ∈ ls
    exact hyv ▸ hym

/-- C6: creator resolution is total over the requested id set: the result
has exactly one entry per requested id (same keys, same cardinality);
ids with a unique live row resolve to that row's creator with the
existence flag set, and ids with no live row (absent or tombstoned only)
resolve to the zero address with the flag cleared — for assets and apps
symmetrically. -/
theorem claimC6_creator_resolution_total (db : DB) (ids appIds : List Nat) :
    ∃ res resA,
      getAssetCreator db ids = Except.ok res ∧
      getAppCreator db appIds = Except.ok resA ∧
      res.map Prod.fst = ids ∧ resA.map Prod.fst = appIds ∧
      res.length = ids.length ∧ resA.length = appIds.length ∧
      (∀ i ∈ ids, ∀ r : AssetRow, uniqueLiveAsset db i r →
        (i, { address := r.creatorAddr, existsFlag := true }) ∈ res) ∧
      (∀ i ∈ ids, noLiveAsset db i →
        (i, { address := 0, existsFlag := false }) ∈ res) ∧
      (∀ i ∈ appIds, ∀ r : AppRow, uniqueLiveApp db i r →
        (i, { address := r.creator, existsFlag := true }) ∈ resA) ∧
      (∀ i ∈ appIds, noLiveApp db i →
        (i, { address := 0, existsFlag := false }) ∈ resA) := by
  refine ⟨assetCreatorEntries db ids, appCreatorEntries db appIds, rfl, rfl,
    assetEntries_fst db ids, appEntries_fst db appIds, ?_, ?_, ?_, ?_, ?_, ?_⟩
  · have := congrArg List.length (assetEntries_fst db ids)
    simpa using this
  · have := congrArg List.length (appEntries_fst db appIds)
    simpa using this
  · intro i hi r hu
    exact assetEntries_live hi hu
  · intro i hi hn
    exact assetEntries_dead hi hn
  · intro i hi r hu
    exact appEntries_live hi hu
  · intro i hi hn
    exact appEntries_dead hi hn

/-- C7: the header accessor of a view bound to round R returns exactly
the header stored for R: a unique stored row whose payload encodes a
header decodes back to that header; no stored row for R gives the
not-found error; a stored but corrupt payload gives the decode-failure
error, which is distinct from not-found. -/
theorem claimC7_latest_block_header (db : DB) (bound : Nat) (hdr : BlockHeader) :
    (∀ row ∈ db.blockHeader, row.round = bound →
      (∀ r2 ∈ db.blockHeader, r2.round = bound → r2 = row) →
      row.header = encodeP hdr → latestBlockHdr db bound = Except.ok hdr) ∧
    ((∀ row ∈ db.blockHeader, row.round ≠ bound) →
      latestBlockHdr db bound = Except.error Err.notFound) ∧
    (∀ row ∈ db.blockHeader, row.round = bound →
      (∀ r2 ∈ db.blockHeader, r2.round = bound → r2 = row) →
      row.header = Payload.corrupt →
      latestBlockHdr db bound = Except.error Err.decodeFailed) ∧
    Err.decodeFailed ≠ Err.notFound := by
  refine ⟨?_, ?_, ?_, by decide⟩
  · intro row hmem hround huniq hhdr
    unfold latestBlockHdr
    have hf : db.blockHeader.find? (fun r => r.round == bound) = some row :=
      findq_unique hmem (by simp [hround])
        (fun y hy hpy => huniq y hy (by simpa using hpy))
    rw [hf]
    show decodeE row.header = Except.ok hdr
    rw [hhdr]
    rfl
  · intro hnone
    unfold latestBlockHdr
    have hf : db.blockHeader.find? (fun r => r.round == bound) = none := by
      apply List.find?_eq_none.mpr
      intro x hx hpx
      exact hnone x hx (by simpa using hpx)
    rw [hf]
  · intro row hmem hround huniq hhdr
    unfold latestBlockHdr
    have hf : db.blockHeader.find? (fun r => r.round == bound) = some row :=
      findq_unique hmem (by simp [hround])
        (fun y hy hpy => huniq y hy (by simpa using hpy))
    rw [hf]
    show decodeE row.header = Except.error Err.decodeFailed
    rw [hhdr]
    rfl

/-- C8: every operation of the view returns either one error or a
complete result for the whole input set, never a partial mapping next to
an error: a successful account lookup carries an entry for every
requested address, the creator resolvers always return exactly the
requested key set, and the header accessor returns one header or one
error. -/
theorem claimC8_full_result_or_error (db : DB) (sp : SpecialAddresses)
    (addrs ids appIds : List Nat) (bound : Nat) :
    ((∃ e, lookupWithoutRewards db sp addrs = Except.error e) ∨
      (∃ res, lookupWithoutRewards db sp addrs = Except.ok res ∧
        ∀ a ∈ addrs, ∃ d, (a, d) ∈ res)) ∧
    (∃ res, getAssetCreator db ids = Except.ok res ∧ res.map Prod.fst = ids) ∧
    (∃ res, getAppCreator db appIds = Except.ok res ∧ res.map Prod.fst = appIds) ∧
    ((∃ e, latestBlockHdr db bound = Except.error e) ∨
      (∃ hd, latestBlockHdr db bound = Except.ok hd)) := by
  refine ⟨?_, ⟨_, rfl, assetEntries_fst db ids⟩, ⟨_, rfl, appEntries_fst db appIds⟩, ?_⟩
  · cases hl : lookupWithoutRewards db sp addrs with
    | error e => exact Or.inl ⟨e, rfl⟩
    | ok res => exact Or.inr ⟨res, rfl, lookup_complete hl⟩
  · cases hb : latestBlockHdr db bound with
    | error e => exact Or.inl ⟨e, rfl⟩
    | ok hd => exact Or.inr ⟨hd, rfl⟩

/-! Witnesses: the claims evaluated on the concrete fixtures. -/

/-- C1 witness: address 7 of `dbW1` has a tombstoned base row and live
child rows, and the lookup maps it to absent. -/
theorem claimC1_witness :
    lookupWithoutRewards dbW1 spW [7] = Except.ok resW1 ∧
    isSpecial spW 7 = false ∧
    (∀ r ∈ dbW1.account, r.addr = 7 → r.deleted = true) ∧
    resLookup resW1 7 = none :=
  ⟨rfl, rfl, by decide,
    claimC1_deleted_or_missing_base_absent dbW1 spW [7] resW1 7 rfl (by decide) rfl
      (by decide)⟩

/-- C2 witness: in one lookup over addresses 5 and 6 of `dbW2`, address 5
receives exactly its own children's ids. -/
theorem claimC2_witness :
    lookupWithoutRewards dbW2 spW [5, 6] = Except.ok resW2 ∧
    liveBaseRow dbW2 5 = some baseW2 ∧
    (∃ rec, resLookup resW2 5 = some rec ∧
      rec.assets.map Prod.fst = holdingIds dbW2 5 ∧
      rec.assetParams.map Prod.fst = assetIds dbW2 5 ∧
      rec.appLocalStates.map Prod.fst = localStateIds dbW2 5 ∧
      rec.appParams.map Prod.fst = appCreationIds dbW2 5 ∧
      rec.assets.length = (liveHoldings dbW2 5).length ∧
      rec.assetParams.length = (liveAssetCreations dbW2 5).length ∧
      rec.appLocalStates.length = (liveLocalStates dbW2 5).length ∧
      rec.appParams.length = (liveAppCreations dbW2 5).length ∧
      (∀ b : Nat, b ≠ 5 →
        (∀ i ∈ holdingIds dbW2 b, i ∉ holdingIds dbW2 5 →
          i ∉ rec.assets.map Prod.fst) ∧
        (∀ i ∈ assetIds dbW2 b, i ∉ assetIds dbW2 5 →
          i ∉ rec.assetParams.map Prod.fst) ∧
        (∀ i ∈ localStateIds dbW2 b, i ∉ localStateIds dbW2 5 →
          i ∉ rec.appLocalStates.map Prod.fst) ∧
        (∀ i ∈ appCreationIds dbW2 b, i ∉ appCreationIds dbW2 5 →
          i ∉ rec.appParams.map Prod.fst))) :=
  ⟨rfl, rfl,
    claimC2_batch_no_cross_contamination dbW2 spW [5, 6] resW2 5 baseW2 rfl
      (by decide) rfl rfl⟩

/-- C3 witness: address 5 of `dbW3` has live and tombstoned rows in each
child relation; its maps hold exactly the live ids. -/
theorem claimC3_witness :
    lookupWithoutRewards dbW3 spW [5] = Except.ok resW3 ∧
    liveBaseRow dbW3 5 = some baseW3 ∧
    ((dbW3.accountAsset.filter (fun x => x.addr == 5)).map (fun x => x.assetid)).Nodup ∧
    (∃ rec, resLookup resW3 5 = some rec ∧
      rec.assets.length = (liveHoldings dbW3 5).length ∧
      rec.assetParams.length = (liveAssetCreations dbW3 5).length ∧
      rec.appLocalStates.length = (liveLocalStates dbW3 5).length ∧
      rec.appParams.length = (liveAppCreations dbW3 5).length ∧
      rec.assets.map Prod.fst = holdingIds dbW3 5 ∧
      rec.assetParams.map Prod.fst = assetIds dbW3 5 ∧
      rec.appLocalStates.map Prod.fst = localStateIds dbW3 5 ∧
      rec.appParams.map Prod.fst = appCreationIds dbW3 5 ∧
      (∀ r ∈ dbW3.accountAsset, r.addr = 5 → r.deleted = true →
        r.assetid ∉ rec.assets.map Prod.fst) ∧
      (∀ r ∈ dbW3.asset, r.creatorAddr = 5 → r.deleted = true →
        r.index ∉ rec.assetParams.map Prod.fst) ∧
      (∀ r ∈ dbW3.accountApp, r.addr = 5 → r.deleted = true →
        r.app ∉ rec.appLocalStates.map Prod.fst) ∧
      (∀ r ∈ dbW3.app, r.creator = 5 → r.deleted = true →
        r.index ∉ rec.appParams.map Prod.fst) ∧
      (liveHoldings dbW3 5 = [] → rec.assets = []) ∧
      (liveAssetCreations dbW3 5 = [] → rec.assetParams = []) ∧
      (liveLocalStates dbW3 5 = [] → rec.appLocalStates = []) ∧
      (liveAppCreations dbW3 5 = [] → rec.appParams = [])) :=
  ⟨rfl, rfl, by decide,
    claimC3_tombstone_filtering_per_relation dbW3 spW [5] resW3 5 baseW3 rfl
      (by decide) rfl rfl (by decide) (by decide) (by decide) (by decide)⟩

/-- C4 witness: the fee-sink address 1 of `dbW4` has a storage row, yet
the lookup returns the synthetic overlay record. -/
theorem claimC4_witness :
    isSpecial spW 1 = true ∧
    lookupWithoutRewards dbW4 spW [1] = Except.ok resW4 ∧
    (resLookup resW4 1 = some overlayRecord ∧
      overlayRecord.microAlgos = syntheticBalance ∧
      overlayRecord.rewardsBase = 0 ∧
      overlayRecord.rewardedMicroAlgos = 0 ∧
      overlayRecord.assetParams = [] ∧
      overlayRecord.assets = [] ∧
      overlayRecord.appLocalStates = [] ∧
      overlayRecord.appParams = []) :=
  ⟨rfl, rfl,
    claimC4_special_address_overlay dbW4 spW [1] resW4 1 rfl (by decide) rfl⟩

/-- C5 witness: address 8 of `dbW5` has a live base row with a null
payload column; the lookup yields its column values with empty maps. -/
theorem claimC5_witness :
    baseW5.accountData = none ∧
    lookupWithoutRewards dbW5 spW [8] = Except.ok resW5 ∧
    resLookup resW5 8 = some
      { microAlgos := 2, rewardsBase := 0, rewardedMicroAlgos := 0,
        status := 0, voteID := 0,
        assetParams := [], assets := [], appLocalStates := [], appParams := [] } :=
  ⟨rfl, rfl,
    claimC5_null_account_data_default dbW5 spW [8] resW5 8 baseW5 rfl (by decide)
      rfl rfl rfl rfl rfl rfl rfl⟩

/-- C6 witness: over `dbW6`, ids 1 (live), 2 (absent) and 3 (tombstoned)
resolve to present entries with the expected creators and flags. -/
theorem claimC6_witness :
    (1, ({ address := 5, existsFlag := true } : FoundAddress))
      ∈ assetCreatorEntries dbW6 [1, 2, 3] ∧
    (2, ({ address := 0, existsFlag := false } : FoundAddress))
      ∈ assetCreatorEntries dbW6 [1, 2, 3] ∧
    (1, ({ address := 7, existsFlag := true } : FoundAddress))
      ∈ appCreatorEntries dbW6 [1, 2, 3] ∧
    (3, ({ address := 0, existsFlag := false } : FoundAddress))
      ∈ appCreatorEntries dbW6 [1, 2, 3] ∧
    (assetCreatorEntries dbW6 [1, 2, 3]).length = 3 := by
  obtain ⟨res, resA, h1, h2, hfst, hfstA, hlen, hlenA, hlive, hdead, hliveA, hdeadA⟩ :=
    claimC6_creator_resolution_total dbW6 [1, 2, 3] [1, 2, 3]
  have e1 := hlive 1 (by decide) rowW6asset
    (by unfold uniqueLiveAsset; exact ⟨by decide, by decide, by decide, by decide⟩)
  have e2 := hdead 2 (by decide) (by unfold noLiveAsset; decide)
  have e3 := hliveA 1 (by decide) rowW6app
    (by unfold uniqueLiveApp; exact ⟨by decide, by decide, by decide, by decide⟩)
  have e4 := hdeadA 3 (by decide) (by unfold noLiveApp; decide)
  unfold getAssetCreator at h1
  unfold getAppCreator at h2
  injection h1 with he1
  injection h2 with he2
  rw [← he1] at e1 e2
  rw [← he2] at e3 e4
  exact ⟨e1, e2, e3, e4, by decide⟩

/-- C7 witness: `dbW7` stores a header at round 2 only, and `dbW7c`
stores a corrupt one at round 4. -/
theorem claimC7_witness :
    latestBlockHdr dbW7 2 = Except.ok hdrW ∧
    latestBlockHdr dbW7 3 = Except.error Err.notFound ∧
    latestBlockHdr dbW7c 4 = Except.error Err.decodeFailed :=
  ⟨(claimC7_latest_block_header dbW7 2 hdrW).1 rowW7 (by decide) rfl (by decide) rfl,
    (claimC7_latest_block_header dbW7 3 hdrW).2.1 (by decide),
    (claimC7_latest_block_header dbW7c 4 hdrW).2.2.1 rowW7c (by decide) rfl
      (by decide) rfl⟩

/-- C8 witness: every operation over `dbW8` yields one error or one
complete result. -/
theorem claimC8_witness :
    ((∃ e, lookupWithoutRewards dbW8 spW [9] = Except.error e) ∨
      (∃ res, lookupWithoutRewards dbW8 spW [9] = Except.ok res ∧
        ∀ a ∈ [9], ∃ d, (a, d) ∈ res)) ∧
    (∃ res, getAssetCreator dbW8 [1, 2] = Except.ok res ∧
      res.map Prod.fst = [1, 2]) ∧
    (∃ res, getAppCreator dbW8 [1, 2] = Except.ok res ∧
      res.map Prod.fst = [1, 2]) ∧
    ((∃ e, latestBlockHdr dbW8 2 = Except.error e) ∨
      (∃ hd, latestBlockHdr dbW8 2 = Except.ok hd)) :=
  claimC8_full_result_or_error dbW8 spW [9] [1, 2] [1, 2] 2

/-- C9 witness: the stored payload of address 7 in `dbW9` carries
balances 999/888/777 while the columns carry 2/3/4; the record equals the
columns. -/
theorem claimC9_witness :
    baseW9.accountData = some (encodeP tW9) ∧
    tW9.microAlgos = 999 ∧
    baseW9.microalgos = 2 ∧
    lookupWithoutRewards dbW9 spW [7] = Except.ok resW9 ∧
    (∃ rec, resLookup resW9 7 = some rec ∧
      rec.microAlgos = baseW9.microalgos ∧
      rec.rewardsBase = baseW9.rewardsbase ∧
      rec.rewardedMicroAlgos = baseW9.rewardsTotal ∧
      rec.status = tW9.status ∧
      rec.voteID = tW9.voteID) :=
  ⟨rfl, rfl, rfl, rfl,
    claimC9_balance_from_columns dbW9 spW [7] resW9 7 baseW9 tW9 rfl (by decide)
      rfl rfl rfl⟩

/-- C10 witness: the app params and local state of address 5 in `dbW10`,
whose key-value maps use the non-UTF-8 key 0xff, round-trip through the
lookup. -/
theorem claimC10_witness :
    rowW10app.params = encodeP ppW ∧
    rowW10acc.localstate = encodeP lsW ∧
    (∃ rec, resLookup resW10 5 = some rec ∧ (40, ppW) ∈ rec.appParams) ∧
    (∃ rec, resLookup resW10 5 = some rec ∧ (30, lsW) ∈ rec.appLocalStates) := by
  have h := claimC10_app_state_roundtrip dbW10 spW [5] resW10 5 baseW10 rfl
    (by decide) rfl rfl
  exact ⟨rfl, rfl, h.1 rowW10app (by decide) rfl rfl ppW rfl,
    h.2 rowW10acc (by decide) rfl rfl lsW rfl⟩
